import Mathlib

/-!
Verification of the Superstore sales dashboard's data pipeline
(`src/app.py` and `src/scripts/app.py`): loader, filter engine,
forecaster gating, top-N aggregation, and CSV export, embedded as
executable Lean definitions over an explicit record model.

Dates are modelled as integers (days); decimal columns as rationals;
IEEE float special values that matter for the derived profit-margin
column are made explicit in the type `FVal`.
-/

namespace Superstore

/-- A float-column value: the cases relevant to `Profit / Sales`
(NaN, plus and minus infinity, finite numbers). -/
inductive FVal where
  | nan
  | inf
  | neginf
  | num (q : ℚ)
  deriving DecidableEq

/-- One loaded transaction row (the columns the pipeline touches).
Categorical columns and dates are `Option`-valued: `none` is the
missing marker (NaN / NaT). -/
structure Row where
  orderDate : Option Int
  shipDate : Option Int
  region : Option String
  category : Option String
  subCategory : Option String
  productName : Option String
  sales : ℚ
  profit : ℚ
  discount : ℚ
  profitMargin : FVal
  deriving DecidableEq

/-- One raw CSV row before the loader's date parsing and derived column. -/
structure RawRow where
  orderDateStr : String
  shipDateStr : String
  region : Option String
  category : Option String
  subCategory : Option String
  productName : Option String
  sales : ℚ
  profit : ℚ
  discount : ℚ
  deriving DecidableEq

/-- The float division `df["Profit"] / df["Sales"]`, with the IEEE-754
zero-divisor cases explicit: `0/0` is NaN, `p/0` for `p ≠ 0` is a signed
infinity, and otherwise the exact quotient. -/
def profitMargin (profit sales : ℚ) : FVal :=
  if sales = 0 then
    if profit = 0 then FVal.nan
    else if 0 < profit then FVal.inf
    else FVal.neginf
  else FVal.num (profit / sales)

/-- Whether a float value is a missing-value marker (`pd.isna`):
NaN is missing, infinities are not. -/
def isMissing : FVal → Bool
  | FVal.nan => true
  | _ => false

/-- `load_data` (both variants): every raw row is kept; the date columns
are parsed with coercion to the missing marker on failure
(`pd.to_datetime(..., errors="coerce")`, abstracted by the `parseDate`
parameter); `ProfitMargin` is the derived column `Profit / Sales`. -/
def load_data (parseDate : String → Option Int) (raw : List RawRow) : List Row :=
  raw.map (fun rr =>
    { orderDate := parseDate rr.orderDateStr
      shipDate := parseDate rr.shipDateStr
      region := rr.region
      category := rr.category
      subCategory := rr.subCategory
      productName := rr.productName
      sales := rr.sales
      profit := rr.profit
      discount := rr.discount
      profitMargin := profitMargin rr.profit rr.sales })

/-- `Series.isin(sel)` on an `Option`-valued column: a missing value is
never a member; otherwise list membership. -/
def memOpt (v : Option String) (sel : List String) : Bool :=
  match v with
  | none => false
  | some s => sel.contains s

/-- The filter of `src/app.py` line 38:
`df[(df["Region"].isin(region)) & (df["Category"].isin(category))]` —
both membership tests are applied unconditionally. -/
def filtered_df_A (df : List Row) (region category : List String) : List Row :=
  df.filter (fun r => memOpt r.region region && memOpt r.category category)

/-- One categorical filter step of `src/scripts/app.py` lines 58-63:
`if ... and selected: filtered_df = filtered_df[col.isin(selected)]` —
an empty selection skips the step entirely. -/
def filterCat (df : List Row) (get : Row → Option String) (sel : List String) : List Row :=
  if sel.isEmpty then df else df.filter (fun r => memOpt (get r) sel)

/-- The date filter step of `src/scripts/app.py` lines 65-70: applied only
when the widget returned exactly two dates; a row passes when its order
date is parsed and lies in `[s, e]` (a NaT never satisfies either
comparison). -/
def dateFilterStep (df : List Row) (dr : List Int) : List Row :=
  match dr with
  | [s, e] =>
      df.filter (fun r =>
        match r.orderDate with
        | none => false
        | some d => decide (s ≤ d) && decide (d ≤ e))
  | _ => df

/-- The user-selected constraints of `src/scripts/app.py`: one inclusion
list per categorical dimension plus the date-range widget value. -/
structure FilterSpec where
  regions : List String
  categories : List String
  subCategories : List String
  dateRange : List Int
  deriving DecidableEq

/-- The full filter pipeline of `src/scripts/app.py` lines 56-70:
region, category, sub-category, then the date interval. -/
def filtered_df_B (df : List Row) (spec : FilterSpec) : List Row :=
  dateFilterStep
    (filterCat
      (filterCat
        (filterCat df Row.region spec.regions)
        Row.category spec.categories)
      Row.subCategory spec.subCategories)
    spec.dateRange

/-- The parsed (non-NaT) order dates of a table. -/
def orderDates (df : List Row) : List Int := df.filterMap Row.orderDate

/-- The default value of the date-range widget in `src/scripts/app.py`
lines 49-51: `[df["Order Date"].min(), df["Order Date"].max()]`
(min/max skip NaT; undefined when every date is NaT). -/
def defaultDateRange (df : List Row) : List Int :=
  match orderDates df with
  | [] => []
  | d :: ds => [ds.foldl min d, ds.foldl max d]

/-- `len(sales_ts)` in `src/app.py` line 83: the number of distinct parsed
order dates (`groupby("Order Date")` drops NaT keys). -/
def sales_ts_len (view : List Row) : Nat := (orderDates view).dedup.length

/-- `sales_ts["Order Date"].max()` in `src/app.py` line 87. -/
def maxOrderDate (view : List Row) : Option Int :=
  match orderDates view with
  | [] => none
  | d :: ds => some (ds.foldl max d)

/-- `pd.date_range(sales_ts["Order Date"].max(), periods=30, freq="D")`
(`src/app.py` line 87): thirty consecutive days starting AT the maximal
observed order date. -/
def forecastDates (view : List Row) : List Int :=
  match maxOrderDate view with
  | none => []
  | some m => (List.range 30).map (fun i => m + Int.ofNat i)

/-- The observable outcome of the forecast section. -/
inductive ForecastOutcome where
  | insufficient
  | fitted (dates : List Int)
  deriving DecidableEq

/-- The forecast gating of `src/app.py` lines 83-94: fit and plot when
`len(sales_ts) > 20`, otherwise report "Not enough data for forecast." -/
def forecaster (view : List Row) : ForecastOutcome :=
  if 20 < sales_ts_len view then ForecastOutcome.fitted (forecastDates view)
  else ForecastOutcome.insufficient

/-- A concrete row builder for test datasets. -/
def mkRow (d : Option Int) : Row :=
  { orderDate := d
    shipDate := none
    region := some "West"
    category := some "Office Supplies"
    subCategory := some "Binders"
    productName := some "Stapler"
    sales := 1
    profit := 1
    discount := 0
    profitMargin := FVal.num 1 }

/-- A view with exactly 20 distinct order dates. -/
def view20 : List Row := (List.range 20).map (fun i => mkRow (some (i : Int)))

/-- A view with exactly 21 distinct order dates. -/
def view21 : List Row := (List.range 21).map (fun i => mkRow (some (i : Int)))

/-- Claim C4: a daily series with at most 20 distinct dates is rejected as
insufficient data (no fit is attempted); one with at least 21 distinct
dates proceeds to the fit (`if len(sales_ts) > 20` in `src/app.py`). -/
theorem forecaster_gate (view : List Row) :
    (sales_ts_len view ≤ 20 → forecaster view = ForecastOutcome.insufficient) ∧
    (21 ≤ sales_ts_len view → forecaster view = ForecastOutcome.fitted (forecastDates view)) := by
  refine ⟨fun h => ?_, fun h => ?_⟩
  · simp [forecaster, Nat.not_lt.mpr h]
  · have h' : 20 < sales_ts_len view := h
    simp [forecaster, h']

/-- Claim C4 witness: a series with exactly 20 distinct dates is rejected,
one with exactly 21 distinct dates is accepted. -/
theorem forecaster_gate_witness :
    sales_ts_len view20 = 20 ∧ sales_ts_len view21 = 21 ∧
    forecaster view20 = ForecastOutcome.insufficient ∧
    forecaster view21 = ForecastOutcome.fitted (forecastDates view21) :=
  ⟨by decide, by decide,
   (forecaster_gate view20).1 (by decide),
   (forecaster_gate view21).2 (by decide)⟩

/-- Claim C3 counterexample: the forecast dates do NOT begin the day after
the last observed date — on `view21` (21 distinct dates, so the fit runs)
the first forecast date equals the last observed date itself, because
`pd.date_range(start, periods=30, freq="D")` includes its start. -/
theorem forecast_start_counterexample :
    ¬ (∀ view : List Row, 20 < sales_ts_len view →
        (forecastDates view).head? = (maxOrderDate view).map (fun d => d + 1)) := by
  intro h
  have h21 := h view21 (by decide)
  exact absurd h21 (by decide)

/-- Claim C3 amended: for every accepted series (more than 20 distinct
dates), the forecast consists of exactly 30 dates that begin ON the last
observed date and advance by exactly one calendar day per step. -/
theorem forecastDates_spec (view : List Row) (h : 20 < sales_ts_len view) :
    ∃ m, maxOrderDate view = some m ∧
      (forecastDates view).length = 30 ∧
      ∀ i : Nat, i < 30 → (forecastDates view)[i]? = some (m + Int.ofNat i) := by
  have hne : orderDates view ≠ [] := by
    intro h0
    rw [sales_ts_len, h0] at h
    simp at h
  rcases hd : orderDates view with _ | ⟨d, ds⟩
  · exact absurd hd hne
  · have hm : maxOrderDate view = some (ds.foldl max d) := by
      rw [maxOrderDate, hd]
    have hf : forecastDates view = (List.range 30).map (fun i => ds.foldl max d + Int.ofNat i) := by
      rw [forecastDates, hm]
    refine ⟨ds.foldl max d, hm, ?_, ?_⟩
    · rw [hf, List.length_map, List.length_range]
    · intro i hi
      rw [hf, List.getElem?_map, List.getElem?_range hi]
      rfl

/-- Claim C3 witness: the amended statement evaluated on the 21-date view. -/
theorem forecastDates_spec_witness :
    ∃ m, maxOrderDate view21 = some m ∧
      (forecastDates view21).length = 30 ∧
      ∀ i : Nat, i < 30 → (forecastDates view21)[i]? = some (m + Int.ofNat i) :=
  forecastDates_spec view21 (by decide)

theorem memOpt_nil (v : Option String) : memOpt v [] = false := by
  cases v <;> rfl

theorem mem_filterCat {r : Row} {df : List Row} {get : Row → Option String}
    {sel : List String} (h : r ∈ filterCat df get sel) :
    r ∈ df ∧ (sel ≠ [] → memOpt (get r) sel = true) := by
  by_cases hs : sel.isEmpty = true
  · rw [filterCat, if_pos hs] at h
    exact ⟨h, fun hne => absurd (List.isEmpty_iff.mp hs) hne⟩
  · rw [filterCat, if_neg hs] at h
    have hm := List.mem_filter.mp h
    exact ⟨hm.1, fun _ => hm.2⟩

theorem mem_dateFilterStep {r : Row} {df : List Row} {dr : List Int}
    (h : r ∈ dateFilterStep df dr) :
    r ∈ df ∧ ∀ s e, dr = [s, e] → ∃ d, r.orderDate = some d ∧ s ≤ d ∧ d ≤ e := by
  rcases dr with _ | ⟨s, _ | ⟨e, _ | ⟨x, xs⟩⟩⟩
  · exact ⟨h, by intro s e h'; cases h'⟩
  · exact ⟨h, by intro s' e' h'; simp at h'⟩
  · have hm := List.mem_filter.mp h
    refine ⟨hm.1, fun s' e' heq => ?_⟩
    have hs : s = s' ∧ e = e' := by simpa using heq
    rcases hs with ⟨rfl, rfl⟩
    have hb := hm.2
    rcases hod : r.orderDate with _ | d
    · rw [hod] at hb; cases hb
    · rw [hod] at hb
      simp only [Bool.and_eq_true, decide_eq_true_eq] at hb
      exact ⟨d, rfl, hb.1, hb.2⟩
  · exact ⟨h, by intro s' e' h'; simp at h'⟩

/-- Claim C1: in both variants the FilteredView is a subset of the Dataset,
and every retained row satisfies every active constraint simultaneously —
membership in each non-empty inclusion list and, when the date interval is
active (the widget returned two dates), order date within the interval:
the constraints combine as a conjunction. -/
theorem filter_conjunction_sound (df : List Row) (rs cs : List String) (spec : FilterSpec) :
    (∀ r ∈ filtered_df_A df rs cs,
      r ∈ df ∧ (rs ≠ [] → memOpt r.region rs = true) ∧
        (cs ≠ [] → memOpt r.category cs = true)) ∧
    (∀ r ∈ filtered_df_B df spec,
      r ∈ df ∧
      (spec.regions ≠ [] → memOpt r.region spec.regions = true) ∧
      (spec.categories ≠ [] → memOpt r.category spec.categories = true) ∧
      (spec.subCategories ≠ [] → memOpt r.subCategory spec.subCategories = true) ∧
      (∀ s e, spec.dateRange = [s, e] → ∃ d, r.orderDate = some d ∧ s ≤ d ∧ d ≤ e)) := by
  constructor
  · intro r hr
    have hm := List.mem_filter.mp hr
    have hb := hm.2
    simp only [Bool.and_eq_true] at hb
    exact ⟨hm.1, fun _ => hb.1, fun _ => hb.2⟩
  · intro r hr
    have h1 := mem_dateFilterStep hr
    have h2 := mem_filterCat h1.1
    have h3 := mem_filterCat h2.1
    have h4 := mem_filterCat h3.1
    exact ⟨h4.1, h4.2, h3.2, h2.2, h1.2⟩

/-- A concrete row and FilterSpec used by the witnesses. -/
def rowW : Row := mkRow (some 5)

def specW : FilterSpec :=
  { regions := ["West"], categories := ["Office Supplies"],
    subCategories := ["Binders"], dateRange := [0, 10] }

/-- Claim C1 witness: the soundness theorem evaluated on a one-row dataset
with all four constraints active. -/
theorem filter_conjunction_sound_witness :
    memOpt rowW.region ["West"] = true ∧
    memOpt rowW.category ["Office Supplies"] = true ∧
    ∃ d, rowW.orderDate = some d ∧ 0 ≤ d ∧ d ≤ 10 := by
  have h := (filter_conjunction_sound [rowW] ["West"] ["Office Supplies"] specW).2
    rowW (by decide)
  exact ⟨h.2.1 (by decide), h.2.2.1 (by decide), h.2.2.2.2 0 10 rfl⟩

/-- Claim C2 counterexample: in `src/app.py`, an empty Region inclusion list
does NOT mean "no constraint": `isin([])` is false for every row, so a row
satisfying the other active constraint is still dropped and the
FilteredView is empty. -/
theorem empty_selection_counterexample :
    memOpt rowW.category ["Office Supplies"] = true ∧
    filtered_df_A [rowW] [] ["Office Supplies"] = [] ∧
    rowW ∉ filtered_df_A [rowW] [] ["Office Supplies"] :=
  ⟨by decide, by decide, by decide⟩

/-- Claim C2 amended: in `src/scripts/app.py` a dimension with an empty
inclusion list is skipped and imposes no constraint, but in `src/app.py`
an empty inclusion list makes the membership test false for every row, so
the FilteredView is empty (an impossible constraint, not no constraint). -/
theorem empty_selection_amended (df : List Row) (get : Row → Option String)
    (cs : List String) :
    filterCat df get [] = df ∧ filtered_df_A df [] cs = [] := by
  constructor
  · rfl
  · refine List.filter_eq_nil_iff.mpr ?_
    intro r _
    simp [memOpt_nil]

/-- Claim C5: with an active interval `[s, e]`, the date filter of
`src/scripts/app.py` retains exactly the rows whose order date is parsed
and lies within the interval, both endpoints inclusive; every row whose
order date is the missing marker is excluded. -/
theorem date_interval_exact (df : List Row) (s e : Int) (r : Row) :
    (r ∈ dateFilterStep df [s, e] ↔
      r ∈ df ∧ ∃ d, r.orderDate = some d ∧ s ≤ d ∧ d ≤ e) ∧
    (r.orderDate = none → r ∉ dateFilterStep df [s, e]) := by
  have hiff : r ∈ dateFilterStep df [s, e] ↔
      r ∈ df ∧ ∃ d, r.orderDate = some d ∧ s ≤ d ∧ d ≤ e := by
    constructor
    · intro h
      have hm := mem_dateFilterStep h
      exact ⟨hm.1, hm.2 s e rfl⟩
    · rintro ⟨h1, d, hod, h2, h3⟩
      refine List.mem_filter.mpr ⟨h1, ?_⟩
      rw [hod]
      simp [h2, h3]
  refine ⟨hiff, fun hn hmem => ?_⟩
  rcases (hiff.mp hmem).2 with ⟨d, hod, _, _⟩
  rw [hn] at hod
  cases hod

/-- Claim C5 witness: a row dated inside the interval is retained; a row
with a missing order date is excluded. -/
theorem date_interval_exact_witness :
    rowW ∈ dateFilterStep [rowW] [0, 10] ∧
    mkRow none ∉ dateFilterStep [mkRow none] [0, 10] :=
  ⟨(date_interval_exact [rowW] 0 10 rowW).1.mpr ⟨by decide, 5, rfl, by decide, by decide⟩,
   (date_interval_exact [mkRow none] 0 10 (mkRow none)).2 rfl⟩

/-- Claim C10: in `src/scripts/app.py`, when the Order Date column has at
least one parsed date the default widget value is the two-element interval
[min order date, max order date], so the date filter is active and every
row whose order date failed to parse is excluded from the FilteredView —
even though `load_data` retained every raw row. -/
theorem default_range_excludes_missing (df : List Row) (spec : FilterSpec)
    (hne : orderDates df ≠ []) :
    (defaultDateRange df).length = 2 ∧
    (∀ r ∈ filtered_df_B df { spec with dateRange := defaultDateRange df },
      r.orderDate ≠ none) ∧
    (∀ p raw, (load_data p raw).length = raw.length) := by
  rcases hd : orderDates df with _ | ⟨d, ds⟩
  · exact absurd hd hne
  · have hdr : defaultDateRange df = [ds.foldl min d, ds.foldl max d] := by
      rw [defaultDateRange, hd]
    refine ⟨by rw [hdr]; rfl, ?_, ?_⟩
    · intro r hr hnone
      have h1 := mem_dateFilterStep hr
      have h2 := h1.2 (ds.foldl min d) (ds.foldl max d) hdr
      rcases h2 with ⟨d', hod, _, _⟩
      rw [hnone] at hod
      cases hod
    · intro p raw
      rw [load_data, List.length_map]

/-- A dataset with one parsed and one missing order date. -/
def dfW : List Row := [mkRow (some 3), mkRow none]

/-- Claim C10 witness: on `dfW` the default interval has two endpoints and
the row with the missing order date is excluded from the FilteredView. -/
theorem default_range_excludes_missing_witness :
    (defaultDateRange dfW).length = 2 ∧
    mkRow none ∉ filtered_df_B dfW { specW with dateRange := defaultDateRange dfW } := by
  have h := default_range_excludes_missing dfW specW (by decide)
  exact ⟨h.1, fun hmem => h.2.1 (mkRow none) hmem rfl⟩

/-- Claim C6 amended: the loader computes each row's profit margin as
`Profit / Sales` under float semantics; when sales is 0 the result is NaN
only if the profit is also 0, and a signed infinity otherwise — never an
error, but not always a missing-value marker. -/
theorem profit_margin_zero_sales (p : String → Option Int) (raw : List RawRow)
    (r : Row) (hr : r ∈ load_data p raw) :
    (∃ rr ∈ raw, r.profit = rr.profit ∧ r.sales = rr.sales ∧
      r.profitMargin = profitMargin rr.profit rr.sales) ∧
    (∀ profit sales : ℚ,
      (sales = 0 ∧ profit = 0 → profitMargin profit sales = FVal.nan) ∧
      (sales = 0 ∧ 0 < profit → profitMargin profit sales = FVal.inf) ∧
      (sales = 0 ∧ profit < 0 → profitMargin profit sales = FVal.neginf) ∧
      (sales ≠ 0 → profitMargin profit sales = FVal.num (profit / sales))) := by
  constructor
  · obtain ⟨rr, hrr, heq⟩ := List.mem_map.mp hr
    subst heq
    exact ⟨rr, hrr, rfl, rfl, rfl⟩
  · intro profit sales
    refine ⟨fun h => ?_, fun h => ?_, fun h => ?_, fun h => ?_⟩
    · simp [profitMargin, h.1, h.2]
    · simp [profitMargin, h.1, ne_of_gt h.2, h.2]
    · simp [profitMargin, h.1, ne_of_lt h.2, not_lt.mpr h.2.le]
    · simp [profitMargin, h]

/-- A raw row with zero sales and strictly positive profit. -/
def rawZero : RawRow :=
  { orderDateStr := "bad", shipDateStr := "bad", region := some "West",
    category := some "Office Supplies", subCategory := some "Binders",
    productName := some "Stapler", sales := 0, profit := 5, discount := 0 }

/-- The row `load_data` produces from `rawZero`. -/
def loadedZero : Row :=
  { orderDate := none, shipDate := none, region := some "West",
    category := some "Office Supplies", subCategory := some "Binders",
    productName := some "Stapler", sales := 0, profit := 5, discount := 0,
    profitMargin := FVal.inf }

/-- Claim C6 counterexample: a loaded row with sales 0 and profit 5 gets
profit margin +infinity, which is NOT a missing-value marker. -/
theorem profit_margin_counterexample :
    (load_data (fun _ => none) [rawZero]).map Row.profitMargin = [FVal.inf] ∧
    isMissing FVal.inf = false :=
  ⟨by decide, rfl⟩

/-- Claim C6 witness: the zero-sales cases of the amended statement,
evaluated concretely. -/
theorem profit_margin_zero_sales_witness :
    profitMargin (5 : ℚ) 0 = FVal.inf ∧ profitMargin (0 : ℚ) 0 = FVal.nan := by
  have h := (profit_margin_zero_sales (fun _ => none) [rawZero] loadedZero (by decide)).2
  exact ⟨(h 5 0).2.1 ⟨rfl, by norm_num⟩, (h 0 0).1 ⟨rfl, rfl⟩⟩

/-- The two encodings the scripts mention. -/
inductive Encoding where
  | utf8
  | latin1
  deriving DecidableEq

/-- The encoding used by `src/app.py` line 19:
`pd.read_csv(..., encoding="latin1")` — latin-1 unconditionally. The
parameter records whether the file is decodable as UTF-8. -/
def encodingUsed_A (_utf8ok : Bool) : Encoding := Encoding.latin1

/-- The encoding used by `src/scripts/app.py` lines 17-20: UTF-8 is tried
first and latin-1 used only on a `UnicodeDecodeError`. -/
def encodingUsed_B (utf8ok : Bool) : Encoding :=
  if utf8ok then Encoding.utf8 else Encoding.latin1

/-- Claim C8 counterexample: `src/app.py` reads a UTF-8-decodable file with
latin-1, never attempting UTF-8. -/
theorem encoding_counterexample :
    encodingUsed_A true = Encoding.latin1 ∧ Encoding.latin1 ≠ Encoding.utf8 :=
  ⟨rfl, by decide⟩

/-- Claim C8 amended: `src/scripts/app.py` attempts UTF-8 first and falls
back to latin-1 exactly on decode failure; `src/app.py` uses latin-1
unconditionally. -/
theorem encoding_amended :
    (∀ b, encodingUsed_A b = Encoding.latin1) ∧
    encodingUsed_B true = Encoding.utf8 ∧
    encodingUsed_B false = Encoding.latin1 :=
  ⟨fun _ => rfl, rfl, rfl⟩

/-- Lexicographic comparison on character lists (executable). -/
def charsLe : List Char → List Char → Bool
  | [], _ => true
  | _ :: _, [] => false
  | a :: as, b :: bs => if a < b then true else if b < a then false else charsLe as bs

/-- Lexicographic comparison on strings (executable). -/
def strLe (a b : String) : Bool := charsLe a.data b.data

/-- Ascending insertion into a key list. -/
def insertKey (k : String) : List String → List String
  | [] => [k]
  | x :: xs => if strLe k x then k :: x :: xs else x :: insertKey k xs

/-- Ascending sort of the group keys (`groupby` default `sort=True`). -/
def sortKeys : List String → List String
  | [] => []
  | k :: ks => insertKey k (sortKeys ks)

/-- An entry of the grouped sums: product name with summed sales. -/
abbrev Entry := String × ℚ

/-- The distinct product names of a view (NaN keys dropped by `groupby`),
in the ascending key order `groupby` produces. -/
def groupKeys (view : List Row) : List String :=
  sortKeys (view.filterMap Row.productName).dedup

/-- The summed sales of one product group. -/
def sumSalesFor (view : List Row) (k : String) : ℚ :=
  ((view.filter (fun r => decide (r.productName = some k))).map Row.sales).sum

/-- `filtered_df.groupby("Product Name")["Sales"].sum()`: each distinct
product name paired with its summed sales, keys ascending. -/
def groupSums (view : List Row) : List Entry :=
  (groupKeys view).map (fun k => (k, sumSalesFor view k))

/-- Descending stable insertion: the new entry goes before the first
existing entry whose value it reaches (so never before an equal,
earlier-processed one — but the fold order below makes earlier input
entries be inserted last, keeping ties in input order). -/
def insertDesc (p : Entry) : List Entry → List Entry
  | [] => [p]
  | q :: qs => if q.2 ≤ p.2 then p :: q :: qs else q :: insertDesc p qs

/-- Stable descending-by-value sort. -/
def sortDesc : List Entry → List Entry
  | [] => []
  | p :: ps => insertDesc p (sortDesc ps)

/-- `Series.nlargest(n)` with the default `keep="first"`: the n largest
entries in descending value order, ties kept in input order. -/
def nlargest (n : Nat) (l : List Entry) : List Entry := (sortDesc l).take n

/-- `top10` of `src/app.py` line 67. -/
def top10 (view : List Row) : List Entry := nlargest 10 (groupSums view)

/-- `top_products` of `src/scripts/app.py` line 137. -/
def top_products (view : List Row) : List Entry := nlargest 10 (groupSums view)

/-- "b is no larger than a": the descending order relation on entries. -/
def descRel (a b : Entry) : Prop := b.2 ≤ a.2

theorem perm_insertDesc (p : Entry) (l : List Entry) : List.Perm (insertDesc p l) (p :: l) := by
  induction l with
  | nil => exact List.Perm.refl _
  | cons q qs ih =>
    rw [insertDesc]
    split
    · exact List.Perm.refl _
    · exact (ih.cons q).trans (List.Perm.swap p q qs)

theorem perm_sortDesc (l : List Entry) : List.Perm (sortDesc l) l := by
  induction l with
  | nil => exact List.Perm.refl _
  | cons p ps ih => exact (perm_insertDesc p (sortDesc ps)).trans (ih.cons p)

theorem sorted_insertDesc {p : Entry} {l : List Entry}
    (h : l.Pairwise descRel) : (insertDesc p l).Pairwise descRel := by
  induction l with
  | nil => simp [insertDesc, descRel]
  | cons q qs ih =>
    rcases List.pairwise_cons.mp h with ⟨hq, hqs⟩
    rw [insertDesc]
    split
    case isTrue hle =>
      refine List.pairwise_cons.mpr ⟨?_, h⟩
      intro x hx
      rcases List.mem_cons.mp hx with rfl | hx'
      · exact hle
      · exact le_trans (hq x hx') hle
    case isFalse hle =>
      refine List.pairwise_cons.mpr ⟨?_, ih hqs⟩
      intro x hx
      rcases List.mem_cons.mp ((perm_insertDesc p qs).mem_iff.mp hx) with rfl | hx'
      · exact le_of_not_le hle
      · exact hq x hx'

theorem sorted_sortDesc (l : List Entry) : (sortDesc l).Pairwise descRel := by
  induction l with
  | nil => exact List.Pairwise.nil
  | cons p ps ih => exact sorted_insertDesc ih

theorem filter_insertDesc (v : ℚ) (p : Entry) (l : List Entry) :
    (insertDesc p l).filter (fun q => decide (q.2 = v)) =
      if p.2 = v then p :: l.filter (fun q => decide (q.2 = v))
      else l.filter (fun q => decide (q.2 = v)) := by
  induction l with
  | nil =>
    rw [insertDesc]
    by_cases hp : p.2 = v <;> simp [List.filter_cons, hp]
  | cons q qs ih =>
    rw [insertDesc]
    split
    case isTrue hle =>
      by_cases hp : p.2 = v <;> simp [List.filter_cons, hp]
    case isFalse hle =>
      by_cases hp : p.2 = v
      · have hq : ¬(q.2 = v) := fun h => hle (le_of_eq (h.trans hp.symm))
        simp [List.filter_cons, hq, ih, hp]
      · by_cases hq : q.2 = v <;> simp [List.filter_cons, hq, ih, hp]

theorem filter_sortDesc (v : ℚ) (l : List Entry) :
    (sortDesc l).filter (fun q => decide (q.2 = v)) =
      l.filter (fun q => decide (q.2 = v)) := by
  induction l with
  | nil => rfl
  | cons p ps ih =>
    rw [sortDesc, filter_insertDesc]
    by_cases hp : p.2 = v <;> simp [List.filter_cons, hp, ih]

/-- Claim C7: both `top10` (`src/app.py`) and `top_products`
(`src/scripts/app.py`) are `nlargest 10` over the grouped sums, and for
every group list `nlargest n` returns the n entries of largest summed
sales in descending order: the result is sorted descending, has length
`min n`, every unselected group's sum is at most every selected one's,
at most n groups means all of them are returned (still fully sorted), and
ties are broken by the grouped input order (stability: for each value, the
selected entries are an initial segment of the input's entries with that
value, in input order). -/
theorem topN_spec (view : List Row) (n : Nat) :
    top10 view = nlargest 10 (groupSums view) ∧
    top_products view = nlargest 10 (groupSums view) ∧
    ∀ l : List Entry,
      (nlargest n l).Pairwise descRel ∧
      (nlargest n l).length = min n l.length ∧
      (∃ rest, List.Perm l (nlargest n l ++ rest) ∧
        ∀ b ∈ rest, ∀ a ∈ nlargest n l, b.2 ≤ a.2) ∧
      (l.length ≤ n → List.Perm (nlargest n l) l) ∧
      (∀ v : ℚ, ∃ u, l.filter (fun q => decide (q.2 = v)) =
        (nlargest n l).filter (fun q => decide (q.2 = v)) ++ u) := by
  refine ⟨rfl, rfl, fun l => ⟨?_, ?_, ?_, ?_, ?_⟩⟩
  · exact List.Pairwise.sublist (List.take_sublist n _) (sorted_sortDesc l)
  · rw [nlargest, List.length_take, (perm_sortDesc l).length_eq]
  · refine ⟨(sortDesc l).drop n, ?_, ?_⟩
    · rw [nlargest, List.take_append_drop]
      exact (perm_sortDesc l).symm
    · have hp : ((sortDesc l).take n ++ (sortDesc l).drop n).Pairwise descRel := by
        rw [List.take_append_drop]
        exact sorted_sortDesc l
      have h3 := (List.pairwise_append.mp hp).2.2
      intro b hb a ha
      exact h3 a ha b hb
  · intro hlen
    have : (sortDesc l).length ≤ n := by
      rw [(perm_sortDesc l).length_eq]
      exact hlen
    rw [nlargest, List.take_of_length_le this]
    exact perm_sortDesc l
  · intro v
    refine ⟨((sortDesc l).drop n).filter (fun q => decide (q.2 = v)), ?_⟩
    rw [← filter_sortDesc v l]
    conv_lhs => rw [← List.take_append_drop n (sortDesc l)]
    rw [List.filter_append]
    rfl

/-- A row with a given product name and sales amount. -/
def mkSale (name : String) (amt : ℚ) : Row :=
  { mkRow (some 0) with productName := some name, sales := amt }

/-- A view with three rows over two product groups. -/
def viewP : List Row := [mkSale "A" 5, mkSale "B" 9, mkSale "A" 2]

/-- Claim C7 witness: on a view with two product groups (fewer than ten)
the top-10 selection returns all of them, still fully ordered by
descending summed sales. -/
theorem topN_spec_witness :
    List.Perm (nlargest 10 (groupSums viewP)) (groupSums viewP) ∧
    (nlargest 10 (groupSums viewP)).Pairwise descRel :=
  ⟨((topN_spec viewP 10).2.2 (groupSums viewP)).2.2.2.1 (by decide),
   ((topN_spec viewP 10).2.2 (groupSums viewP)).1⟩

/-- Whether a character forces CSV quoting (`csv.QUOTE_MINIMAL`): the
delimiter, the quote character, or a line break. -/
def isSpecial (c : Char) : Bool := c == ',' || c == '"' || c == '\n' || c == '\r'

/-- Whether a field must be quoted when serialized. -/
def needsQuoting (f : List Char) : Bool := f.any isSpecial

/-- Double every quote character (the body of a quoted field). -/
def escQuotes : List Char → List Char
  | [] => []
  | c :: cs => if c = '"' then '"' :: '"' :: escQuotes cs else c :: escQuotes cs

/-- Serialize one field, quoting exactly when needed. -/
def escapeField (f : List Char) : List Char :=
  if needsQuoting f then '"' :: (escQuotes f ++ ['"']) else f

/-- Join fields with the comma delimiter. -/
def joinComma : List (List Char) → List Char
  | [] => []
  | [f] => f
  | f :: fs => f ++ ',' :: joinComma fs

/-- Serialize one record. -/
def writeRow (r : List (List Char)) : List Char := joinComma (r.map escapeField)

/-- `DataFrame.to_csv(index=False)` over stringized cells: each record on
its own newline-terminated line, fields comma-separated and minimally
quoted. -/
def writeCSV (rows : List (List (List Char))) : List Char :=
  (rows.map (fun r => writeRow r ++ ['\n'])).flatten

/-- Parse the body of a quoted field (after its opening quote); returns
the field content and the input following the closing quote. -/
def parseQuoted : List Char → Option (List Char × List Char)
  | [] => none
  | c :: rest =>
    if c = '"' then
      match rest with
      | [] => some ([], [])
      | c2 :: rest2 =>
        if c2 = '"' then (parseQuoted rest2).map (fun p => ('"' :: p.1, p.2))
        else some ([], c2 :: rest2)
    else (parseQuoted rest).map (fun p => (c :: p.1, p.2))

/-- Parse an unquoted field: everything up to the next delimiter or
newline. -/
def parseUnquoted : List Char → List Char × List Char
  | [] => ([], [])
  | c :: rest =>
    if c = ',' ∨ c = '\n' then ([], c :: rest)
    else
      let p := parseUnquoted rest
      (c :: p.1, p.2)

/-- Parse one field (quoted or not). -/
def parseField (input : List Char) : Option (List Char × List Char) :=
  match input with
  | [] => some ([], [])
  | c :: rest => if c = '"' then parseQuoted rest else some (parseUnquoted (c :: rest))

/-- Parse one record up to and including its newline terminator (or the
end of input); the fuel bounds the number of fields. -/
def parseRecord : Nat → List Char → Option (List (List Char) × List Char)
  | 0, _ => none
  | fuel + 1, input =>
    match parseField input with
    | none => none
    | some (f, rest) =>
      match rest with
      | [] => some ([f], [])
      | c :: rest2 =>
        if c = ',' then
          match parseRecord fuel rest2 with
          | none => none
          | some (fs, r) => some (f :: fs, r)
        else if c = '\n' then some ([f], rest2)
        else none

/-- Parse a whole CSV document; the fuel bounds the number of records. -/
def parseCSVAux : Nat → List Char → Option (List (List (List Char)))
  | _, [] => some []
  | 0, _ :: _ => none
  | fuel + 1, c :: input =>
    match parseRecord (input.length + 2) (c :: input) with
    | none => none
    | some (r, rest) =>
      match parseCSVAux fuel rest with
      | none => none
      | some rs => some (r :: rs)

/-- Decode a CSV document into its records. -/
def parseCSV (input : List Char) : Option (List (List (List Char))) :=
  parseCSVAux input.length input

/-- Render a date cell (`NaT` exports as the empty cell). -/
def renderOptDate : Option Int → List Char
  | none => []
  | some d => (toString d).data

/-- Render a categorical cell (`NaN` exports as the empty cell). -/
def renderOptStr : Option String → List Char
  | none => []
  | some s => s.data

/-- Render a numeric cell. -/
def renderQ (q : ℚ) : List Char := (toString q).data

/-- Render a float cell including the special values. -/
def renderFVal : FVal → List Char
  | FVal.nan => []
  | FVal.inf => String.data "inf"
  | FVal.neginf => String.data "-inf"
  | FVal.num q => renderQ q

/-- The cell strings of one exported row. -/
def rowCells (r : Row) : List (List Char) :=
  [renderOptDate r.orderDate, renderOptDate r.shipDate,
   renderOptStr r.region, renderOptStr r.category, renderOptStr r.subCategory,
   renderOptStr r.productName, renderQ r.sales, renderQ r.profit,
   renderQ r.discount, renderFVal r.profitMargin]

/-- The exported header row: the Dataset's columns. -/
def csvHeader : List (List Char) :=
  [String.data "Order Date", String.data "Ship Date", String.data "Region",
   String.data "Category", String.data "Sub-Category",
   String.data "Product Name", String.data "Sales", String.data "Profit",
   String.data "Discount", String.data "ProfitMargin"]

/-- `filtered_df.to_csv(index=False)`: the header then one line per
FilteredView row, in row order. -/
def exportCSV (view : List Row) : List Char :=
  writeCSV (csvHeader :: view.map rowCells)

/-- The characters allowed to follow a serialized field: nothing, a
delimiter, or a newline. -/
def stopOk : List Char → Prop
  | [] => True
  | c :: _ => c = ',' ∨ c = '\n'

theorem parseQuoted_quote_cons (c2 : Char) (rest2 : List Char) (h : ¬ c2 = '"') :
    parseQuoted ('"' :: c2 :: rest2) = some ([], c2 :: rest2) := by
  simp [parseQuoted, h]

theorem parseQuoted_quote_quote (rest2 : List Char) :
    parseQuoted ('"' :: '"' :: rest2) =
      (parseQuoted rest2).map (fun p => ('"' :: p.1, p.2)) := by
  simp [parseQuoted]

theorem parseQuoted_other (c : Char) (rest : List Char) (h : ¬ c = '"') :
    parseQuoted (c :: rest) = (parseQuoted rest).map (fun p => (c :: p.1, p.2)) := by
  rw [parseQuoted.eq_def]
  simp [h]

theorem parseQuoted_escQuotes (f : List Char) :
    ∀ rest : List Char, rest.head? ≠ some '"' →
      parseQuoted (escQuotes f ++ '"' :: rest) = some (f, rest) := by
  induction f with
  | nil =>
    intro rest h
    rcases rest with _ | ⟨c2, rest2⟩
    · rfl
    · have hc2 : ¬ c2 = '"' := fun hc => h (by rw [hc]; rfl)
      simpa [escQuotes] using parseQuoted_quote_cons c2 rest2 hc2
  | cons c f' ih =>
    intro rest h
    by_cases hc : c = '"'
    · subst hc
      have heq : escQuotes ('"' :: f') ++ '"' :: rest
          = '"' :: '"' :: (escQuotes f' ++ '"' :: rest) := by
        simp [escQuotes]
      rw [heq, parseQuoted_quote_quote, ih rest h]
      rfl
    · have heq : escQuotes (c :: f') ++ '"' :: rest
          = c :: (escQuotes f' ++ '"' :: rest) := by
        simp [escQuotes, hc]
      rw [heq, parseQuoted_other c _ hc, ih rest h]
      rfl

theorem clean_of_not_quoting {f : List Char} (h : needsQuoting f = false) :
    ∀ c ∈ f, ¬ c = ',' ∧ ¬ c = '"' ∧ ¬ c = '\n' ∧ ¬ c = '\r' := by
  intro c hc
  have h2 := List.any_eq_false.mp h c hc
  simpa [isSpecial, not_or, and_assoc] using h2

theorem parseUnquoted_clean (f : List Char) :
    ∀ stop : List Char, (∀ c ∈ f, ¬(c = ',' ∨ c = '\n')) → stopOk stop →
      parseUnquoted (f ++ stop) = (f, stop) := by
  induction f with
  | nil =>
    intro stop _ hstop
    rcases stop with _ | ⟨c, cs⟩
    · rfl
    · rcases hstop with hc | hc <;> subst hc <;> rfl
  | cons c f' ih =>
    intro stop hclean hstop
    have hc : ¬(c = ',' ∨ c = '\n') := hclean c (List.mem_cons_self c f')
    rw [List.cons_append, parseUnquoted, if_neg hc,
      ih stop (fun x hx => hclean x (List.mem_cons_of_mem c hx)) hstop]

theorem parseField_escapeField (f : List Char) (stop : List Char) (hstop : stopOk stop) :
    parseField (escapeField f ++ stop) = some (f, stop) := by
  have hhead : stop.head? ≠ some '"' := by
    rcases stop with _ | ⟨c, cs⟩
    · simp
    · rcases hstop with hc | hc <;> subst hc <;> simp
  by_cases hq : needsQuoting f = true
  · have heq : escapeField f ++ stop = '"' :: (escQuotes f ++ '"' :: stop) := by
      simp [escapeField, hq]
    rw [heq]
    exact parseQuoted_escQuotes f stop hhead
  · have hfalse : needsQuoting f = false := by
      revert hq; cases needsQuoting f <;> simp
    have hclean := clean_of_not_quoting hfalse
    have hesc : escapeField f = f := by simp [escapeField, hfalse]
    rw [hesc]
    rcases f with _ | ⟨c, f'⟩
    · rw [List.nil_append]
      rcases stop with _ | ⟨c, cs⟩
      · rfl
      · rcases hstop with hc | hc <;> subst hc <;> rfl
    · have hcs := hclean c (List.mem_cons_self c f')
      rw [List.cons_append, parseField, if_neg hcs.2.1]
      rw [← List.cons_append,
        parseUnquoted_clean (c :: f') stop
          (fun x hx => fun hor => by
            rcases hor with h1 | h1
            · exact (hclean x hx).1 h1
            · exact (hclean x hx).2.2.1 h1)
          hstop]

theorem writeRow_single (f : List Char) : writeRow [f] = escapeField f := rfl

theorem writeRow_cons (f g : List Char) (r : List (List Char)) :
    writeRow (f :: g :: r) = escapeField f ++ ',' :: writeRow (g :: r) := rfl

theorem length_writeRow (r : List (List Char)) : r.length ≤ (writeRow r).length + 1 := by
  match r with
  | [] => simp
  | [f] => simp
  | f :: g :: r' =>
    have ih := length_writeRow (g :: r')
    rw [writeRow_cons]
    simp only [List.length_cons, List.length_append] at ih ⊢
    omega

theorem parseRecord_writeRow (r : List (List Char)) :
    ∀ (fuel : Nat) (rest : List Char), r ≠ [] → r.length ≤ fuel →
      parseRecord fuel (writeRow r ++ '\n' :: rest) = some (r, rest) := by
  induction r with
  | nil => intro fuel rest hne _; exact absurd rfl hne
  | cons f r' ih =>
    intro fuel rest _ hlen
    rcases fuel with _ | fuel'
    · simp at hlen
    rcases r' with _ | ⟨g, r''⟩
    · rw [writeRow_single]
      simp only [parseRecord]
      rw [parseField_escapeField f ('\n' :: rest) (Or.inr rfl)]
      rfl
    · have heq : writeRow (f :: g :: r'') ++ '\n' :: rest
          = escapeField f ++ ',' :: (writeRow (g :: r'') ++ '\n' :: rest) := by
        rw [writeRow_cons, List.append_assoc, List.cons_append]
      rw [heq]
      simp only [parseRecord]
      rw [parseField_escapeField f (',' :: (writeRow (g :: r'') ++ '\n' :: rest)) (Or.inl rfl)]
      have hih := ih fuel' rest (List.cons_ne_nil g r'') (by
        simp only [List.length_cons] at hlen ⊢
        omega)
      simp [hih]

theorem writeCSV_cons (r : List (List Char)) (rs : List (List (List Char))) :
    writeCSV (r :: rs) = writeRow r ++ '\n' :: writeCSV rs := by
  show (writeRow r ++ ['\n']) ++ writeCSV rs = writeRow r ++ '\n' :: writeCSV rs
  rw [List.append_assoc, List.singleton_append]

theorem length_writeCSV (rows : List (List (List Char))) :
    rows.length ≤ (writeCSV rows).length := by
  induction rows with
  | nil => simp
  | cons r rs ih =>
    rw [writeCSV_cons]
    simp only [List.length_cons, List.length_append] at ih ⊢
    omega

theorem parseCSVAux_writeCSV (rows : List (List (List Char))) :
    ∀ fuel : Nat, (∀ r ∈ rows, r ≠ []) → rows.length ≤ fuel →
      parseCSVAux fuel (writeCSV rows) = some rows := by
  induction rows with
  | nil =>
    intro fuel _ _
    cases fuel <;> rfl
  | cons r rs ih =>
    intro fuel hne hlen
    rcases fuel with _ | fuel'
    · simp at hlen
    rw [writeCSV_cons]
    obtain ⟨c, input, hw⟩ :
        ∃ c input, writeRow r ++ '\n' :: writeCSV rs = c :: input := by
      rcases hwr : writeRow r with _ | ⟨x, xs⟩
      · exact ⟨'\n', writeCSV rs, by rw [List.nil_append]⟩
      · exact ⟨x, xs ++ '\n' :: writeCSV rs, by rw [List.cons_append]⟩
    rw [hw]
    simp only [parseCSVAux]
    have hfuel2 : input.length + 2 = (c :: input).length + 1 := by
      simp
    rw [hfuel2, ← hw]
    have hbound : r.length ≤ (writeRow r ++ '\n' :: writeCSV rs).length + 1 := by
      have h1 := length_writeRow r
      simp only [List.length_append, List.length_cons]
      omega
    rw [parseRecord_writeRow r ((writeRow r ++ '\n' :: writeCSV rs).length + 1)
      (writeCSV rs) (hne r (List.mem_cons_self r rs)) hbound]
    show (match parseCSVAux fuel' (writeCSV rs) with
      | none => none
      | some rs' => some (r :: rs')) = some (r :: rs)
    rw [ih fuel' (fun x hx => hne x (List.mem_cons_of_mem r hx)) (by
      simp only [List.length_cons] at hlen
      omega)]

theorem parseCSV_writeCSV (rows : List (List (List Char)))
    (hne : ∀ r ∈ rows, r ≠ []) :
    parseCSV (writeCSV rows) = some rows :=
  parseCSVAux_writeCSV rows (writeCSV rows).length hne (length_writeCSV rows)

/-- Claim C9: decoding the delimited-text output of the Exporter parses to
exactly the header row followed by the FilteredView's rows (fields quoted
and escaped minimally, so arbitrary cell contents round-trip): the round
trip preserves the row count and the column set. -/
theorem export_round_trip (view : List Row) :
    parseCSV (exportCSV view) = some (csvHeader :: view.map rowCells) ∧
    ∃ t, parseCSV (exportCSV view) = some t ∧ t.head? = some csvHeader ∧
      t.length = view.length + 1 := by
  have hne : ∀ r ∈ csvHeader :: view.map rowCells, r ≠ [] := by
    intro r hr
    rcases List.mem_cons.mp hr with rfl | hr'
    · exact List.cons_ne_nil _ _
    · obtain ⟨row, _, rfl⟩ := List.mem_map.mp hr'
      exact List.cons_ne_nil _ _
  have h := parseCSV_writeCSV (csvHeader :: view.map rowCells) hne
  refine ⟨h, csvHeader :: view.map rowCells, h, rfl, ?_⟩
  simp

end Superstore
